import Mathlib

/-!
Shallow embedding of the JSON encoder in `src/src/pkg/json/encode.go`
(package `json` of this repository, 2011-era Go standard library).

Go values reaching the encoder are modelled by the inductive `GoJson.JValue`,
which records exactly the information `reflect` exposes to `encode.go`:
the value's kind, its contents, and (for the two places the code consults
types rather than kinds) whether the value's type is exactly `[]byte`
(`vBytes` vs `vArray`) and whether a map's key kind is `reflect.String`.
Go strings are byte lists (`List Nat`, each entry < 256), since the escaper
and the UTF-8 validity check in `encode.go` operate on raw bytes.

Errors are modelled with `Except`: `(*encodeState).error` panics, the panic
is recovered in `marshal`, and `Marshal` then returns a nil byte slice, so
the observable behaviour of `Marshal` is exactly `Except JErr (List Nat)`.
-/

namespace GoJson

/-- Error taxonomy of `encode.go`: `UnsupportedTypeError`, `InvalidUTF8Error`
(which carries the offending string), and `MarshalerError` (whose
`reflect.Type` and inner error payloads are not needed by any claim and are
dropped here). -/
inductive JErr where
  | unsupportedType
  | invalidUTF8 (s : List Nat)
  | marshalerError
deriving DecidableEq

/-- Kinds caught by the `default` branch of `reflectValueQuoted`'s switch:
`Func`, `Chan` and `Complex64/128` values have no JSON representation. -/
inductive OtherKind where
  | func
  | chan
  | complexNum
deriving DecidableEq

mutual

/-- A Go value as seen through `reflect` by `encode.go`.

* `vInvalid` — an invalid `reflect.Value` (`!v.IsValid()`), e.g. obtained
  from a nil `interface{}` passed to `Marshal`.
* `vBool`, `vInt`, `vUint` — the boolean, signed and unsigned integer kinds
  (`Float32/64` carry binary floating point and are outside this embedding).
* `vString` — a string value, as its raw bytes.
* `vBytes` — a value whose type is exactly `[]byte` (`byteSliceType` in the
  source); this is the only array/slice shape taking the base64 branch.
* `vArray` — any other array or slice value (including byte arrays such as
  `[2]byte` and named byte-slice types, whose elements then appear as
  `vUint` bytes), with its element values in order.
* `vMap` — a map value: whether its key kind is `reflect.String`, whether
  the map itself is nil, and the key/value pairs in storage order.
* `vStruct` — a struct value with its fields in declaration order.
* `vPtr` — a pointer or interface value (`none` when nil).
* `vOther` — the unsupported kinds of the switch's `default` branch.
* `vMarshaler` — a value whose type implements the `Marshaler` interface;
  `hook` is the outcome of its `MarshalJSON` call, and `core` is the
  underlying structural value (used by `isEmptyValue`, which switches on
  the value's kind, but never consulted by the encoder's dispatch). -/
inductive JValue where
  | vInvalid
  | vBool (b : Bool)
  | vInt (i : Int)
  | vUint (n : Nat)
  | vString (s : List Nat)
  | vBytes (bs : List Nat)
  | vArray (elems : List JValue)
  | vMap (keyKindString : Bool) (isNil : Bool) (entries : List (List Nat × JValue))
  | vStruct (fields : List JField)
  | vPtr (inner : Option JValue)
  | vOther (k : OtherKind)
  | vMarshaler (hook : Except Unit (List Nat)) (core : JValue)

/-- One struct field as `reflect.StructField` presents it to the loop in
`reflectValueQuoted`: its name, its `PkgPath` (nonempty exactly for
unexported fields, which the loop skips), the value of its `json` struct
tag (the result of `f.Tag.Get("json")`, empty when absent), and the field's
value. -/
inductive JField where
  | mk (name : String) (pkgPath : String) (tag : String) (value : JValue)

end

/-- Field name accessor. -/
def JField.name : JField → String
  | .mk n _ _ _ => n

/-- Field `PkgPath` accessor. -/
def JField.pkgPath : JField → String
  | .mk _ p _ _ => p

/-- Field `json` tag accessor. -/
def JField.tag : JField → String
  | .mk _ _ t _ => t

/-- Field value accessor. -/
def JField.value : JField → JValue
  | .mk _ _ _ v => v

/-- UTF-8 encoding of one character, byte by byte (used to turn the Lean
strings standing for Go identifiers and tags into the byte lists the
encoder emits). -/
def charBytes (c : Char) : List Nat :=
  let n := c.toNat
  if n < 0x80 then [n]
  else if n < 0x800 then [0xC0 + n / 64, 0x80 + n % 64]
  else if n < 0x10000 then [0xE0 + n / 4096, 0x80 + n / 64 % 64, 0x80 + n % 64]
  else [0xF0 + n / 262144, 0x80 + n / 4096 % 64, 0x80 + n / 64 % 64, 0x80 + n % 64]

/-- The bytes of a Lean string (Go strings are byte sequences; all Go
identifiers and tags are valid UTF-8, so this conversion is faithful). -/
def strBytes (s : String) : List Nat :=
  s.data.foldr (fun c acc => charBytes c ++ acc) []

/-- The digit table `hex = "0123456789abcdef"` of `encode.go`, as a byte
for each index below 16. -/
def hexDigit (n : Nat) : Nat :=
  if n < 10 then 48 + n else 87 + n

/-- Modelled from the spec: `utf8.DecodeRuneInString` (the `utf8` package is
part of this repository but not under `src/`). Given the bytes at the
current position it returns the decoded code point and its size in bytes;
every malformed sequence — a stray continuation byte, a truncated sequence,
a byte above `0xF7`, or an overlong encoding — decodes as the replacement
character `0xFFFD` with size 1, which is the exact condition the escaper
treats as `InvalidUTF8`. -/
def decodeRune : List Nat → Nat × Nat
  | [] => (0xFFFD, 0)
  | c0 :: rest =>
    if c0 < 0x80 then (c0, 1)
    else if c0 < 0xC0 then (0xFFFD, 1)
    else
      match rest with
      | [] => (0xFFFD, 1)
      | c1 :: rest2 =>
        if c1 < 0x80 ∨ 0xC0 ≤ c1 then (0xFFFD, 1)
        else if c0 < 0xE0 then
          let r := (c0 % 0x20) * 64 + c1 % 64
          if r ≤ 0x7F then (0xFFFD, 1) else (r, 2)
        else
          match rest2 with
          | [] => (0xFFFD, 1)
          | c2 :: rest3 =>
            if c2 < 0x80 ∨ 0xC0 ≤ c2 then (0xFFFD, 1)
            else if c0 < 0xF0 then
              let r := (c0 % 0x10) * 4096 + (c1 % 64) * 64 + c2 % 64
              if r ≤ 0x7FF then (0xFFFD, 1) else (r, 3)
            else
              match rest3 with
              | [] => (0xFFFD, 1)
              | c3 :: _ =>
                if c3 < 0x80 ∨ 0xC0 ≤ c3 then (0xFFFD, 1)
                else if c0 < 0xF8 then
                  let r := (c0 % 8) * 262144 + (c1 % 64) * 4096 + (c2 % 64) * 64 + c3 % 64
                  if r ≤ 0xFFFF then (0xFFFD, 1) else (r, 4)
                else (0xFFFD, 1)

/-- A byte the escaper copies verbatim: the condition
`0x20 <= b && b != '\\' && b != '"' && b != '<' && b != '>'` of
`(*encodeState).string`, under `b < utf8.RuneSelf`. -/
def safeByte (b : Nat) : Bool :=
  0x20 ≤ b && b < 0x80 && b ≠ 92 && b ≠ 34 && b ≠ 60 && b ≠ 62

/-- The escape emitted by `(*encodeState).string` for an ASCII byte that is
not copied verbatim: `\\` and `\"` for backslash and quote, `\n` and `\r`
for newline and carriage return, and `\u00XX` (lowercase hex) for every
other such byte — which covers the remaining control bytes and the
proactively escaped `<` and `>`. -/
def escapeByte (b : Nat) : List Nat :=
  if b = 92 ∨ b = 34 then [92, b]
  else if b = 10 then [92, 110]
  else if b = 13 then [92, 114]
  else [92, 117, 48, 48, hexDigit (b / 16), hexDigit (b % 16)]

/-- The scanning loop of `(*encodeState).string` over the bytes of `s`,
producing the bytes written between the surrounding quotes. `orig` is the
whole string, carried because `InvalidUTF8Error` reports it. ASCII bytes
are copied or escaped one at a time; for a byte `≥ 0x80` the rune at that
position is decoded, a failed decode (`RuneError` of size 1) aborts with
`InvalidUTF8`, and a successfully decoded rune's bytes are copied verbatim.
(The source tracks a `start` index and copies safe runs in bulk; the bytes
written are the same.) -/
def stringScanAux (orig : List Nat) : List Nat → Except JErr (List Nat)
  | [] => .ok []
  | b :: rest =>
    if b < 0x80 then
      if safeByte b then
        (stringScanAux orig rest).map (fun tl => b :: tl)
      else
        (stringScanAux orig rest).map (fun tl => escapeByte b ++ tl)
    else
      match decodeRune (b :: rest) with
      | (c, size) =>
        if c = 0xFFFD ∧ size = 1 then .error (.invalidUTF8 orig)
        else
          match size, rest with
          | 2, c1 :: rest2 => (stringScanAux orig rest2).map (fun tl => b :: c1 :: tl)
          | 3, c1 :: c2 :: rest3 => (stringScanAux orig rest3).map (fun tl => b :: c1 :: c2 :: tl)
          | 4, c1 :: c2 :: c3 :: rest4 => (stringScanAux orig rest4).map (fun tl => b :: c1 :: c2 :: c3 :: tl)
          | _, _ => .error (.invalidUTF8 orig)

/-- `(*encodeState).string`: the JSON string literal (surrounding quotes
included) for the byte sequence `s`, or `InvalidUTF8Error` when `s` holds a
malformed sequence. -/
def encString (s : List Nat) : Except JErr (List Nat) :=
  (stringScanAux s s).map (fun body => 34 :: (body ++ [34]))

/-- Whether every position of `s` can be decoded by `decodeRune`: the
decoder-based reading of "can be decoded as valid UTF-8". It walks the
bytes exactly as the escaper does — ASCII bytes advance by one, other
positions by the decoded rune's size — and fails exactly where the escaper
raises `InvalidUTF8`. -/
def utf8Valid : List Nat → Bool
  | [] => true
  | b :: rest =>
    if b < 0x80 then utf8Valid rest
    else
      match decodeRune (b :: rest) with
      | (c, size) =>
        if c = 0xFFFD ∧ size = 1 then false
        else
          match size, rest with
          | 2, _ :: rest2 => utf8Valid rest2
          | 3, _ :: _ :: rest3 => utf8Valid rest3
          | 4, _ :: _ :: _ :: rest4 => utf8Valid rest4
          | _, _ => false

/-- Decimal digit accumulation of `strconv.Uitoa64` (most significant digit
first; `fuel` bounds the loop and `n` itself is always enough fuel). -/
def uitoaAux : Nat → Nat → List Nat → List Nat
  | 0, _, acc => acc
  | _ + 1, 0, acc => acc
  | fuel + 1, n, acc => uitoaAux fuel (n / 10) ((48 + n % 10) :: acc)

/-- `strconv.Uitoa64`: the decimal digit bytes of `n`. -/
def uitoa (n : Nat) : List Nat :=
  if n = 0 then [48] else uitoaAux n n []

/-- `strconv.Itoa64`: the decimal rendering of a signed integer, a `-` byte
followed by the digits when negative. -/
def itoa (i : Int) : List Nat :=
  if i < 0 then 45 :: uitoa i.natAbs else uitoa i.natAbs

/-- Splitting a character list at every comma (helper for `parseTag`). -/
def splitComma : List Char → List (List Char)
  | [] => [[]]
  | c :: rest =>
    if c = ',' then [] :: splitComma rest
    else
      match splitComma rest with
      | g :: gs => (c :: g) :: gs
      | [] => [[c]]

/-- Modelled from the spec (§4.1): `parseTag` lives in the package's
`tags.go`, which is not under `src/`. It splits the raw tag at the first
comma into a name prefix and the remaining comma-separated option tokens
(`tagOptions.Contains` then searches those tokens). -/
def parseTag (s : String) : String × List String :=
  match (splitComma s.data).map (fun l => String.mk l) with
  | [] => ("", [])
  | n :: opts => (n, opts)

/-- `isValidTag` of `encode.go`: a tag name is usable only when nonempty
and composed solely of `$`, `-`, `_`, letters and digits. (The source's
`unicode.IsLetter/IsDigit` are modelled by the ASCII classes; the Unicode
tables are not embedded.) -/
def isValidTag (s : String) : Bool :=
  if s = "" then false
  else s.data.all (fun c => c = '$' || c = '-' || c = '_' || c.isAlpha || c.isDigit)

/-- The per-field tag resolution at the head of the struct loop in
`reflectValueQuoted`: starting from `(f.Name, false, false)`, a nonempty
`json` tag is parsed, its name prefix replaces the key only when
`isValidTag` accepts it, and the `omitempty` and `string` options are
looked up among the tag's option tokens. Returns
`(key, omitEmpty, quoted)`. -/
def fieldTagInfo (fname : String) (tv : String) : String × Bool × Bool :=
  if tv = "" then (fname, false, false)
  else
    ((if isValidTag (parseTag tv).1 then (parseTag tv).1 else fname),
     (parseTag tv).2.contains "omitempty",
     (parseTag tv).2.contains "string")

/-- `isEmptyValue` of `encode.go`, switching on the value's kind: length
zero for array/map/slice/string kinds, `false` for booleans, zero for the
integer kinds, nil for interface/pointer kinds, and `false` (not empty) for
every other kind — in particular structs. A `Marshaler` value still has
its underlying kind, so the check looks through the wrapper. -/
def isEmptyValue : JValue → Bool
  | .vArray es => es.length == 0
  | .vMap _ _ entries => entries.length == 0
  | .vString s => s.length == 0
  | .vBytes bs => bs.length == 0
  | .vBool b => !b
  | .vInt i => i == 0
  | .vUint n => n == 0
  | .vPtr inner => inner.isNone
  | .vMarshaler _ core => isEmptyValue core
  | _ => false

/-- Modelled from the spec (§5.2 of the source docs / §4.4): the standard
base64 alphabet value-to-byte table of `base64.StdEncoding` (the `base64`
package is part of this repository but not under `src/`). -/
def b64char (n : Nat) : Nat :=
  if n < 26 then 65 + n
  else if n < 52 then 97 + (n - 26)
  else if n < 62 then 48 + (n - 52)
  else if n = 62 then 43
  else 47

/-- Modelled from the spec: `base64.StdEncoding` encoding of a byte
sequence — three input bytes per four alphabet bytes, `=`-padded at the
tail. Both branches of the source's length split (direct `Encode` below
1024 bytes, a streaming encoder above) produce exactly these bytes. -/
def base64Encode : List Nat → List Nat
  | b0 :: b1 :: b2 :: rest =>
    b64char (b0 / 4) :: b64char (b0 % 4 * 16 + b1 / 16) ::
      b64char (b1 % 16 * 4 + b2 / 64) :: b64char (b2 % 64) :: base64Encode rest
  | [b0, b1] =>
    [b64char (b0 / 4), b64char (b0 % 4 * 16 + b1 / 16), b64char (b1 % 16 * 4), 61]
  | [b0] =>
    [b64char (b0 / 4), b64char (b0 % 4 * 16), 61, 61]
  | [] => []

/-! ## The compaction/validation collaborator

`Compact` (used to check a `Marshaler`'s output before splicing it in) is
part of this repository's `json` package but not under `src/`; per the
spec (§6) it is "a compaction/validator function that accepts arbitrary
bytes and either rewrites them as minimal JSON or fails if they are not
syntactically valid JSON". The functions below model it: a fuel-bounded
recursive-descent scan over RFC 4627 JSON syntax that drops the
whitespace between tokens and keeps string, number and literal tokens
verbatim. -/

/-- JSON insignificant whitespace: space, tab, newline, carriage return. -/
def isWS (b : Nat) : Bool :=
  b == 32 || b == 9 || b == 10 || b == 13

/-- Drop leading insignificant whitespace. -/
def skipWS : List Nat → List Nat
  | [] => []
  | b :: rest => if isWS b then skipWS rest else b :: rest

/-- ASCII decimal digit test. -/
def isDigitByte (b : Nat) : Bool :=
  48 ≤ b && b ≤ 57

/-- ASCII hexadecimal digit test (for `\uXXXX` escapes). -/
def isHexByte (b : Nat) : Bool :=
  isDigitByte b || (97 ≤ b && b ≤ 102) || (65 ≤ b && b ≤ 70)

/-- Take the longest run of leading decimal digits. -/
def takeDigits : List Nat → List Nat × List Nat
  | [] => ([], [])
  | b :: rest =>
    if isDigitByte b then
      match takeDigits rest with
      | (ds, r) => (b :: ds, r)
    else ([], b :: rest)

/-- Modelled from the spec: scan a JSON string literal body after its
opening quote, validating escapes and rejecting unescaped control bytes;
returns the scanned bytes (closing quote included) and the remainder. -/
def scanStringBody : List Nat → Option (List Nat × List Nat)
  | [] => none
  | b :: rest =>
    if b = 34 then some ([34], rest)
    else if b = 92 then
      match rest with
      | [] => none
      | e :: rest2 =>
        if e = 34 ∨ e = 92 ∨ e = 47 ∨ e = 98 ∨ e = 102 ∨ e = 110 ∨ e = 114 ∨ e = 116 then
          (scanStringBody rest2).map (fun p => (92 :: e :: p.1, p.2))
        else if e = 117 then
          match rest2 with
          | h1 :: h2 :: h3 :: h4 :: rest3 =>
            if isHexByte h1 && isHexByte h2 && isHexByte h3 && isHexByte h4 then
              (scanStringBody rest3).map
                (fun p => (92 :: 117 :: h1 :: h2 :: h3 :: h4 :: p.1, p.2))
            else none
          | _ => none
        else none
    else if b < 32 then none
    else (scanStringBody rest).map (fun p => (b :: p.1, p.2))

/-- Modelled from the spec: scan a JSON fraction part (`.` and digits) if
present; fails on a dot without digits. -/
def scanFrac : List Nat → Option (List Nat × List Nat)
  | 46 :: rest =>
    match takeDigits rest with
    | ([], _) => none
    | (ds, r) => some (46 :: ds, r)
  | s => some ([], s)

/-- Modelled from the spec: scan a JSON exponent part (`e`/`E`, optional
sign, digits) if present; fails on an exponent marker without digits. -/
def scanExp : List Nat → Option (List Nat × List Nat)
  | [] => some ([], [])
  | b :: rest =>
    if b = 101 ∨ b = 69 then
      let signRest : List Nat × List Nat :=
        match rest with
        | c :: r => if c = 43 ∨ c = 45 then ([c], r) else ([], rest)
        | [] => ([], [])
      match takeDigits signRest.2 with
      | ([], _) => none
      | (ds, r) => some (b :: (signRest.1 ++ ds), r)
    else some ([], b :: rest)

/-- Modelled from the spec: scan a JSON number (optional minus; `0` or a
nonzero-led digit run; optional fraction and exponent), returning it
verbatim. -/
def scanNumber (s : List Nat) : Option (List Nat × List Nat) :=
  let minusRest : List Nat × List Nat :=
    match s with
    | 45 :: r => ([45], r)
    | _ => ([], s)
  match minusRest.2 with
  | [] => none
  | b :: r =>
    if b = 48 then
      match scanFrac r with
      | none => none
      | some (fb, r2) =>
        match scanExp r2 with
        | none => none
        | some (eb, r3) => some (minusRest.1 ++ 48 :: (fb ++ eb), r3)
    else if isDigitByte b then
      match takeDigits r with
      | (ds, r1) =>
        match scanFrac r1 with
        | none => none
        | some (fb, r2) =>
          match scanExp r2 with
          | none => none
          | some (eb, r3) => some (minusRest.1 ++ b :: (ds ++ fb ++ eb), r3)
    else none

mutual

/-- Modelled from the spec: scan one JSON value, emitting it with the
whitespace between tokens removed. `fuel` bounds nesting; each recursion
step consumes at least one input byte first, so the caller's
`length + 1` fuel never runs out on real input. -/
def compactVal : Nat → List Nat → Option (List Nat × List Nat)
  | 0, _ => none
  | fuel + 1, s =>
    match skipWS s with
    | [] => none
    | b :: rest =>
      if b = 110 then
        match rest with
        | 117 :: 108 :: 108 :: r => some ([110, 117, 108, 108], r)
        | _ => none
      else if b = 116 then
        match rest with
        | 114 :: 117 :: 101 :: r => some ([116, 114, 117, 101], r)
        | _ => none
      else if b = 102 then
        match rest with
        | 97 :: 108 :: 115 :: 101 :: r => some ([102, 97, 108, 115, 101], r)
        | _ => none
      else if b = 34 then
        (scanStringBody rest).map (fun p => (34 :: p.1, p.2))
      else if b = 91 then
        match skipWS rest with
        | 93 :: r => some ([91, 93], r)
        | s2 => (compactElems fuel s2).map (fun p => (91 :: p.1, p.2))
      else if b = 123 then
        match skipWS rest with
        | 125 :: r => some ([123, 125], r)
        | s2 => (compactMembers fuel s2).map (fun p => (123 :: p.1, p.2))
      else if b = 45 ∨ isDigitByte b then scanNumber (b :: rest)
      else none

/-- Modelled from the spec: scan the elements of a nonempty JSON array
after its opening bracket, emitting them comma-separated with the closing
bracket. -/
def compactElems : Nat → List Nat → Option (List Nat × List Nat)
  | 0, _ => none
  | fuel + 1, s =>
    match compactVal fuel s with
    | none => none
    | some (vb, r) =>
      match skipWS r with
      | 44 :: r2 => (compactElems fuel r2).map (fun p => (vb ++ 44 :: p.1, p.2))
      | 93 :: r2 => some (vb ++ [93], r2)
      | _ => none

/-- Modelled from the spec: scan the members of a nonempty JSON object
after its opening brace, emitting `"key":value` pairs comma-separated with
the closing brace. -/
def compactMembers : Nat → List Nat → Option (List Nat × List Nat)
  | 0, _ => none
  | fuel + 1, s =>
    match skipWS s with
    | 34 :: rest =>
      match scanStringBody rest with
      | none => none
      | some (kb, r) =>
        match skipWS r with
        | 58 :: r2 =>
          match compactVal fuel r2 with
          | none => none
          | some (vb, r3) =>
            match skipWS r3 with
            | 44 :: r4 =>
              (compactMembers fuel r4).map
                (fun p => (34 :: (kb ++ 58 :: (vb ++ 44 :: p.1)), p.2))
            | 125 :: r4 => some (34 :: (kb ++ 58 :: (vb ++ [125])), r4)
            | _ => none
        | _ => none
    | _ => none

end

/-- Modelled from the spec: `Compact`. Succeeds with the
whitespace-stripped bytes when the input is exactly one syntactically
valid JSON value (surrounded by optional whitespace), fails otherwise. -/
def compact (bs : List Nat) : Option (List Nat) :=
  match compactVal (bs.length + 1) bs with
  | some (out, r) => if skipWS r = [] then some out else none
  | none => none

/-! ## Map key sorting

The map branch of `reflectValueQuoted` collects the keys (`v.MapKeys()`,
in whatever order map storage yields them), sorts them with `sort.Sort`
over `stringValues.Less`, which compares with Go's byte-lexicographic
string `<`, and then emits each key with the value looked up from the map.
Here the entries carry their (already attributed) values along while the
keys are sorted. -/

/-- Go's string comparison `a <= b`: byte-lexicographic, a strict prefix
ordering before the longer string. `stringValues.Less i j` is
`get i < get j`, i.e. the negation of `lexLe (get j) (get i)`. -/
def lexLe : List Nat → List Nat → Bool
  | [], _ => true
  | _ :: _, [] => false
  | a :: as, b :: bs =>
    if a < b then true
    else if b < a then false
    else lexLe as bs

/-- The sorting relation on key-indexed pairs: compare the keys with
`lexLe`. -/
def keyLe {α : Type} (x y : List Nat × α) : Prop :=
  lexLe x.1 y.1 = true

instance {α : Type} (x y : List Nat × α) : Decidable (keyLe x y) :=
  inferInstanceAs (Decidable (_ = true))

/-- `sort.Sort(sv)` on the collected keys, modelled as an insertion sort of
the key-indexed pairs: the result is the sorted permutation of the input
(Go map keys are distinct, so every correct sort yields these bytes). -/
def sortEntries {α : Type} (l : List (List Nat × α)) : List (List Nat × α) :=
  List.insertionSort keyLe l

/-- Emit the (key-sorted) map entries: for each pair, the escaped key, a
colon, and the entry's already-computed encoding outcome, comma-separated;
errors surface in emission order exactly as the panics of the source's
sorted loop do (key escape first, then the value's error). -/
def joinEntries : List (List Nat × Except JErr (List Nat)) → Bool → Except JErr (List Nat)
  | [], _ => .ok []
  | (k, ev) :: rest, first =>
    match encString k with
    | .error e => .error e
    | .ok kb =>
      match ev with
      | .error e => .error e
      | .ok vb =>
        match joinEntries rest false with
        | .error e => .error e
        | .ok tl => .ok ((if first then [] else [44]) ++ (kb ++ 58 :: (vb ++ tl)))

/-- The `writeString` function value at the top of the kind switch: plain
buffer append normally, the escaping `(*encodeState).string` when the
field is `string`-quoted. -/
def writeString (quoted : Bool) (s : List Nat) : Except JErr (List Nat) :=
  if quoted then encString s else .ok s

mutual

/-- `(*encodeState).reflectValueQuoted`: the bytes written for the value
`v` (`Marshal` returns nil instead of the buffer when an error is raised,
so the outcome is the bytes or the first error). Branch by branch this is
the source's dispatch: invalid values print `null`; a `Marshaler` value's
hook output is validated and compacted, a hook error or invalid output
raising `MarshalerError`; booleans and integers print their text through
`writeString`; strings go through the escaper (twice, via a nested
`Marshal`, when `string`-quoted); structs emit their exported,
non-omitted fields in declaration order; maps with non-string key kind
raise `UnsupportedTypeError`, nil maps print `null`, and other maps emit
their entries in sorted key order; `[]byte` values print base64 in
quotes; other arrays and slices emit their elements; nil pointers and
interfaces print `null` and non-nil ones encode their referent (quoting
dropped, as in the source's `reflectValue` call); and the remaining kinds
raise `UnsupportedTypeError`. -/
def reflectValueQuoted : JValue → Bool → Except JErr (List Nat)
  | .vInvalid, _ => .ok (strBytes "null")
  | .vMarshaler hook _, _ =>
    match hook with
    | .error _ => .error .marshalerError
    | .ok b =>
      match compact b with
      | some cb => .ok cb
      | none => .error .marshalerError
  | .vBool b, quoted => writeString quoted (if b then strBytes "true" else strBytes "false")
  | .vInt i, quoted => writeString quoted (itoa i)
  | .vUint n, quoted => writeString quoted (uitoa n)
  | .vString s, quoted =>
    if quoted then
      match encString s with
      | .error e => .error e
      | .ok sb => encString sb
    else encString s
  | .vStruct fields, _ =>
    match encodeFields fields true with
    | .error e => .error e
    | .ok body => .ok (123 :: (body ++ [125]))
  | .vMap keyKindString isNil entries, _ =>
    if !keyKindString then .error .unsupportedType
    else if isNil then .ok (strBytes "null")
    else
      match joinEntries (sortEntries (encodeMapEntries entries)) true with
      | .error e => .error e
      | .ok body => .ok (123 :: (body ++ [125]))
  | .vBytes bs, _ => .ok (34 :: (base64Encode bs ++ [34]))
  | .vArray elems, _ =>
    match encodeElems elems true with
    | .error e => .error e
    | .ok body => .ok (91 :: (body ++ [93]))
  | .vPtr none, _ => .ok (strBytes "null")
  | .vPtr (some v), _ => reflectValueQuoted v false
  | .vOther _, _ => .error .unsupportedType

/-- The struct loop of `reflectValueQuoted`: unexported fields
(`PkgPath != ""`) are skipped, the tag is resolved with `fieldTagInfo`,
fields whose tag has `omitempty` and whose value is empty are skipped, and
each emitted field is the escaped key, a colon and the field value encoded
with the tag's `string`-quoting, comma-separated (`first` tracks whether a
field has been emitted yet). -/
def encodeFields : List JField → Bool → Except JErr (List Nat)
  | [], _ => .ok []
  | .mk name pkgPath tag v :: rest, first =>
    if pkgPath ≠ "" then encodeFields rest first
    else if (fieldTagInfo name tag).2.1 && isEmptyValue v then encodeFields rest first
    else
      match encString (strBytes (fieldTagInfo name tag).1) with
      | .error e => .error e
      | .ok kb =>
        match reflectValueQuoted v (fieldTagInfo name tag).2.2 with
        | .error e => .error e
        | .ok vb =>
          match encodeFields rest false with
          | .error e => .error e
          | .ok tl => .ok ((if first then [] else [44]) ++ (kb ++ 58 :: (vb ++ tl)))

/-- The per-entry encodings of a map's values (`e.reflectValue(v.MapIndex(k))`
for each key), keyed for the sort; computing them entry-wise before the
sorted emission yields the same bytes and the same first error as the
source's encode-inside-the-sorted-loop. -/
def encodeMapEntries : List (List Nat × JValue) → List (List Nat × Except JErr (List Nat))
  | [] => []
  | (k, v) :: rest => (k, reflectValueQuoted v false) :: encodeMapEntries rest

/-- The array/slice element loop: recursive encodes, comma-separated. -/
def encodeElems : List JValue → Bool → Except JErr (List Nat)
  | [], _ => .ok []
  | v :: rest, first =>
    match reflectValueQuoted v false with
    | .error e => .error e
    | .ok vb =>
      match encodeElems rest false with
      | .error e => .error e
      | .ok tl => .ok ((if first then [] else [44]) ++ (vb ++ tl))

end

/-- `Marshal`: run the encoder on the value; the recovered panic of
`(*encodeState).marshal` becomes the `Except` error, in which case the
caller receives no bytes. -/
def Marshal (v : JValue) : Except JErr (List Nat) :=
  reflectValueQuoted v false

/-! ## Spec-side characterizations

The definitions below restate parts of the spec in their own words, to be
compared with the source-derived definitions above by the theorems. -/

/-- The spec's per-byte escaping table (§4.3): `<` and `>` become `<`
and `>`; backslash, quote, and bytes below `0x20` become their
standard JSON escapes (`\\`, `\"`, `\n`, `\r`, or `\u00XX`); every other
byte — `&` included — is copied verbatim. -/
def specEscByte (b : Nat) : List Nat :=
  if b = 60 then [92, 117, 48, 48, 51, 99]
  else if b = 62 then [92, 117, 48, 48, 51, 101]
  else if b = 92 then [92, 92]
  else if b = 34 then [92, 34]
  else if b = 10 then [92, 110]
  else if b = 13 then [92, 114]
  else if b < 32 then [92, 117, 48, 48, hexDigit (b / 16), hexDigit (b % 16)]
  else [b]

/-- The spec-side rendering of a whole (ASCII) string body: the
concatenation of the per-byte escapes. -/
def escapeAllAscii : List Nat → List Nat
  | [] => []
  | b :: rest => specEscByte b ++ escapeAllAscii rest

/-- Whether the struct loop emits a field: it must be exported
(`PkgPath == ""`) and must not be an empty value whose tag carries
`omitempty`. -/
def fieldKept (f : JField) : Bool :=
  f.pkgPath == "" && !((fieldTagInfo f.name f.tag).2.1 && isEmptyValue f.value)

/-- The struct loop with the two skip tests removed: every listed field is
emitted. Comparing `encodeFields` with `encodeFieldsAll` over the
`fieldKept` filter isolates exactly which fields the encoder suppresses. -/
def encodeFieldsAll : List JField → Bool → Except JErr (List Nat)
  | [], _ => .ok []
  | .mk name _ tag v :: rest, first =>
    match encString (strBytes (fieldTagInfo name tag).1) with
    | .error e => .error e
    | .ok kb =>
      match reflectValueQuoted v (fieldTagInfo name tag).2.2 with
      | .error e => .error e
      | .ok vb =>
        match encodeFieldsAll rest false with
        | .error e => .error e
        | .ok tl => .ok ((if first then [] else [44]) ++ (kb ++ 58 :: (vb ++ tl)))

/-! ## Helper lemmas -/

theorem lexLe_total : ∀ a b : List Nat, lexLe a b = true ∨ lexLe b a = true
  | [], _ => Or.inl rfl
  | _ :: _, [] => Or.inr rfl
  | a :: as, b :: bs => by
    simp only [lexLe]
    rcases Nat.lt_trichotomy a b with h | h | h
    · left; simp [h]
    · subst h
      simp only [Nat.lt_irrefl, if_false]
      exact lexLe_total as bs
    · right; simp [h]

theorem lexLe_trans : ∀ a b c : List Nat,
    lexLe a b = true → lexLe b c = true → lexLe a c = true
  | [], _, _, _, _ => rfl
  | _ :: _, [], _, h1, _ => by simp [lexLe] at h1
  | _ :: _, _ :: _, [], _, h2 => by simp [lexLe] at h2
  | a :: as, b :: bs, c :: cs, h1, h2 => by
    simp only [lexLe] at h1 h2 ⊢
    rcases Nat.lt_trichotomy a b with hab | hab | hab
    · rcases Nat.lt_trichotomy b c with hbc | hbc | hbc
      · simp [Nat.lt_trans hab hbc]
      · subst hbc; simp [hab]
      · simp [Nat.lt_asymm hbc, hbc] at h2
    · subst hab
      rcases Nat.lt_trichotomy a c with hac | hac | hac
      · simp [hac]
      · subst hac
        simp only [Nat.lt_irrefl, if_false] at h1 h2 ⊢
        exact lexLe_trans as bs cs h1 h2
      · simp [Nat.lt_asymm hac, hac] at h2
    · simp [Nat.lt_asymm hab, hab] at h1

instance {α : Type} : IsTotal (List Nat × α) keyLe :=
  ⟨fun x y => lexLe_total x.1 y.1⟩

instance {α : Type} : IsTrans (List Nat × α) keyLe :=
  ⟨fun _ _ _ h1 h2 => lexLe_trans _ _ _ h1 h2⟩

theorem encodeMapEntries_keys : ∀ entries : List (List Nat × JValue),
    (encodeMapEntries entries).map Prod.fst = entries.map Prod.fst
  | [] => rfl
  | (k, v) :: rest => by
    simp [encodeMapEntries, encodeMapEntries_keys rest]

theorem uitoaAux_mem : ∀ fuel n acc b, b ∈ uitoaAux fuel n acc →
    b ∈ acc ∨ (48 ≤ b ∧ b ≤ 57)
  | 0, _, _, _, h => Or.inl h
  | _ + 1, 0, _, _, h => Or.inl h
  | fuel + 1, n + 1, acc, b, h => by
    rcases uitoaAux_mem fuel ((n + 1) / 10) ((48 + (n + 1) % 10) :: acc) b h with hm | hr
    · rcases List.mem_cons.mp hm with he | ha
      · subst he
        have : (n + 1) % 10 < 10 := Nat.mod_lt _ (by omega)
        right; omega
      · exact Or.inl ha
    · exact Or.inr hr

theorem uitoa_digits (n b : Nat) (h : b ∈ uitoa n) : 48 ≤ b ∧ b ≤ 57 := by
  unfold uitoa at h
  by_cases h0 : n = 0
  · simp [h0] at h; omega
  · rw [if_neg h0] at h
    rcases uitoaAux_mem n n [] b h with hm | hr
    · simp at hm
    · exact hr

theorem itoa_safe (i : Int) (b : Nat) (h : b ∈ itoa i) : safeByte b = true := by
  have hdig : b = 45 ∨ (48 ≤ b ∧ b ≤ 57) := by
    unfold itoa at h
    by_cases hneg : i < 0
    · rw [if_pos hneg] at h
      rcases List.mem_cons.mp h with h45 | hd
      · exact Or.inl h45
      · exact Or.inr (uitoa_digits _ _ hd)
    · rw [if_neg hneg] at h
      exact Or.inr (uitoa_digits _ _ h)
  simp only [safeByte, Bool.and_eq_true, decide_eq_true_eq]
  omega

theorem specEscByte_eq : ∀ b, b < 128 →
    specEscByte b = if safeByte b then [b] else escapeByte b := by decide

theorem safeByte_lt (b : Nat) (h : safeByte b = true) : b < 128 := by
  simp only [safeByte, Bool.and_eq_true, decide_eq_true_eq] at h
  omega

theorem stringScanAux_ascii (orig : List Nat) :
    ∀ s : List Nat, (∀ b ∈ s, b < 128) →
      stringScanAux orig s = .ok (escapeAllAscii s)
  | [], _ => rfl
  | b :: rest, h => by
    have hb : b < 128 := h b (List.mem_cons_self _ _)
    have hrest := stringScanAux_ascii orig rest (fun x hx => h x (List.mem_cons_of_mem _ hx))
    simp only [stringScanAux, escapeAllAscii, if_pos hb]
    by_cases hs : safeByte b = true
    · rw [if_pos hs, hrest, specEscByte_eq b hb, if_pos hs]
      rfl
    · rw [if_neg hs, hrest, specEscByte_eq b hb, if_neg hs]
      rfl

theorem encString_ascii (s : List Nat) (h : ∀ b ∈ s, b < 128) :
    encString s = .ok (34 :: (escapeAllAscii s ++ [34])) := by
  unfold encString
  rw [stringScanAux_ascii s s h]
  rfl

theorem escapeAllAscii_safe : ∀ s : List Nat, (∀ b ∈ s, safeByte b = true) →
    escapeAllAscii s = s
  | [], _ => rfl
  | b :: rest, h => by
    have hs : safeByte b = true := h b (List.mem_cons_self _ _)
    rw [escapeAllAscii, specEscByte_eq b (safeByte_lt b hs), if_pos hs,
      escapeAllAscii_safe rest (fun x hx => h x (List.mem_cons_of_mem _ hx))]
    rfl

theorem encString_safe (s : List Nat) (h : ∀ b ∈ s, safeByte b = true) :
    encString s = .ok (34 :: (s ++ [34])) := by
  rw [encString_ascii s (fun b hb => safeByte_lt b (h b hb)), escapeAllAscii_safe s h]

theorem stringScanAux_invalid (orig : List Nat) (s : List Nat)
    (hv : utf8Valid s = false) :
    stringScanAux orig s = .error (.invalidUTF8 orig) := by
  induction s using utf8Valid.induct with
  | case1 => simp [utf8Valid] at hv
  | case2 b tail hb ih =>
    rw [utf8Valid, if_pos hb] at hv
    rw [stringScanAux, if_pos hb]
    by_cases hs : safeByte b = true <;> simp [hs, ih hv, Except.map]
  | case3 b tail hb c size hd herr =>
    rw [stringScanAux, if_neg hb, hd]
    simp [herr]
  | case4 b hb c c1 rest2 herr hd ih =>
    rw [utf8Valid, if_neg hb, hd] at hv
    rw [stringScanAux, if_neg hb, hd]
    simp only [if_neg herr] at hv ⊢
    simp [ih hv, Except.map]
  | case5 b hb c c1 c2 rest3 herr hd ih =>
    rw [utf8Valid, if_neg hb, hd] at hv
    rw [stringScanAux, if_neg hb, hd]
    simp only [if_neg herr] at hv ⊢
    simp [ih hv, Except.map]
  | case6 b hb c c1 c2 c3 rest4 herr hd ih =>
    rw [utf8Valid, if_neg hb, hd] at hv
    rw [stringScanAux, if_neg hb, hd]
    simp only [if_neg herr] at hv ⊢
    simp [ih hv, Except.map]
  | case7 b hb c size herr x hd hx2 hx3 hx4 =>
    rw [stringScanAux, if_neg hb, hd]
    simp only [if_neg herr]

theorem encodeFields_filter : ∀ (fields : List JField) (first : Bool),
    encodeFields fields first = encodeFieldsAll (fields.filter fieldKept) first
  | [], _ => rfl
  | .mk name pkgPath tag v :: rest, first => by
    rw [List.filter_cons]
    by_cases hp : pkgPath = ""
    · by_cases he : ((fieldTagInfo name tag).2.1 && isEmptyValue v) = true
      · have hk : fieldKept (.mk name pkgPath tag v) = false := by
          simp [fieldKept, JField.pkgPath, JField.name, JField.tag, JField.value, he]
        rw [hk]
        simp only [Bool.false_eq_true, if_false]
        rw [encodeFields, if_neg (by simp [hp]), if_pos he]
        exact encodeFields_filter rest first
      · have hk : fieldKept (.mk name pkgPath tag v) = true := by
          simp [fieldKept, JField.pkgPath, JField.name, JField.tag, JField.value, hp, he]
        rw [hk]
        simp only [if_true]
        rw [encodeFields, if_neg (by simp [hp]), if_neg he, encodeFieldsAll,
          encodeFields_filter rest false]
    · have hp2 : pkgPath ≠ "" := hp
      have hk : fieldKept (.mk name pkgPath tag v) = false := by
        simp [fieldKept, JField.pkgPath, hp]
      rw [hk]
      simp only [Bool.false_eq_true, if_false]
      rw [encodeFields, if_pos hp2]
      exact encodeFields_filter rest first

/-! ## Claim theorems -/

/-- Claim C1: for every map value with string-like key kind, the encoder
emits a JSON object whose keys appear in ascending lexicographic order
regardless of the order in which the map's storage yields them — the
emitted entry sequence has byte-lexicographically sorted keys and those
keys are a permutation of the stored keys — and in particular encoding a
map holding entries b:1 and a:2 produces the bytes of the object with
"a":2 before "b":1. -/
theorem claim_C1_map_keys_sorted :
    (∀ entries : List (List Nat × JValue),
      List.Sorted (fun k1 k2 => lexLe k1 k2 = true)
        ((sortEntries (encodeMapEntries entries)).map Prod.fst)
      ∧ ((sortEntries (encodeMapEntries entries)).map Prod.fst).Perm
          (entries.map Prod.fst)
      ∧ reflectValueQuoted (.vMap true false entries) false
          = Except.map (fun body => 123 :: (body ++ [125]))
              (joinEntries (sortEntries (encodeMapEntries entries)) true))
    ∧ Marshal (.vMap true false [([98], .vInt 1), ([97], .vInt 2)])
        = .ok (strBytes "\x7b\"a\":2,\"b\":1\x7d") := by
  refine ⟨fun entries => ⟨?_, ?_, ?_⟩, rfl⟩
  · exact List.Pairwise.map Prod.fst (fun a b h => h)
      (List.sorted_insertionSort keyLe (encodeMapEntries entries))
  · have h1 := (List.perm_insertionSort keyLe (encodeMapEntries entries)).map Prod.fst
    rw [encodeMapEntries_keys] at h1
    exact h1
  · rw [reflectValueQuoted]
    cases hj : joinEntries (sortEntries (encodeMapEntries entries)) true <;>
      simp [hj, Except.map, sortEntries]

/-- Claim C2 (amended): for every string value the encoder reaches, a byte
sequence that cannot be decoded as valid UTF-8 makes the encode return the
`InvalidUTF8` error carrying that string, with no output bytes and no
replacement-character substitution — shown at the top level, inside an
array, and for a `string`-quoted field value. (Strings the traversal never
reaches, such as those in unexported struct fields, do not trigger the
error; see the counterexample.) -/
theorem claim_C2_invalid_utf8 :
    (∀ s : List Nat, utf8Valid s = false →
        Marshal (.vString s) = .error (.invalidUTF8 s))
    ∧ (∀ s : List Nat, utf8Valid s = false →
        Marshal (.vArray [.vString s]) = .error (.invalidUTF8 s))
    ∧ (∀ s : List Nat, utf8Valid s = false →
        reflectValueQuoted (.vString s) true = .error (.invalidUTF8 s)) := by
  have key : ∀ s : List Nat, utf8Valid s = false →
      encString s = .error (.invalidUTF8 s) := by
    intro s hv
    unfold encString
    rw [stringScanAux_invalid s s hv]
    rfl
  refine ⟨fun s hv => key s hv, fun s hv => ?_, fun s hv => ?_⟩
  · simp only [Marshal, reflectValueQuoted, encodeElems, key s hv]
    rfl
  · simp only [reflectValueQuoted, key s hv, if_true]

/-- Claim C2 counterexample: an input that contains a string value holding
the undecodable byte `0xFF` — in an unexported struct field, which the
encoder skips — encodes successfully to the bytes of the empty object
rather than returning `InvalidUTF8` with no output. -/
theorem counterexample_C2_unexported_field :
    Marshal (.vStruct [.mk "s" "json" "" (.vString [255])])
      = .ok (strBytes "\x7b\x7d") := rfl

/-- Claim C2 witness: the single byte `0xFF` is undecodable and encoding
it as a string value returns the `InvalidUTF8` error. -/
theorem claim_C2_invalid_utf8_witness :
    utf8Valid [255] = false
    ∧ Marshal (.vString [255]) = .error (.invalidUTF8 [255]) :=
  ⟨rfl, claim_C2_invalid_utf8.1 [255] rfl⟩

/-- Claim C3 (amended): every value of a non-representable kind (function,
channel, or complex-number handle) and every map whose key kind is not
string-like that the encoder reaches makes the encode return the
`UnsupportedType` error and no output bytes — shown at the top level,
inside an array, in an exported struct field, and behind a pointer.
(Values the traversal never reaches, such as those in unexported struct
fields, do not trigger the error; see the counterexample.) -/
theorem claim_C3_unsupported_kinds :
    (∀ (k : OtherKind) (quoted : Bool),
        reflectValueQuoted (.vOther k) quoted = .error .unsupportedType)
    ∧ (∀ (isNil : Bool) (entries : List (List Nat × JValue)) (quoted : Bool),
        reflectValueQuoted (.vMap false isNil entries) quoted = .error .unsupportedType)
    ∧ (∀ k : OtherKind, Marshal (.vArray [.vOther k]) = .error .unsupportedType)
    ∧ (∀ k : OtherKind, Marshal (.vStruct [.mk "F" "" "" (.vOther k)])
        = .error .unsupportedType)
    ∧ (∀ (isNil : Bool) (entries : List (List Nat × JValue)),
        Marshal (.vPtr (some (.vMap false isNil entries))) = .error .unsupportedType) :=
  ⟨fun _ _ => rfl, fun _ _ _ => rfl, fun _ => rfl, fun _ => rfl, fun _ _ => rfl⟩

/-- Claim C3 counterexample: an input that contains a function-kind value —
in an unexported struct field, which the encoder skips — encodes
successfully to the bytes of the empty object rather than returning
`UnsupportedType` with no output. -/
theorem counterexample_C3_unexported_field :
    Marshal (.vStruct [.mk "f" "json" "" (.vOther .func)])
      = .ok (strBytes "\x7b\x7d") := rfl

/-- Claim C4: a field whose tag carries `omitempty` is suppressed from the
output object exactly when its value is empty (the struct loop equals the
unfiltered loop over the `fieldKept` fields), where empty is: `false` for
booleans, zero for the integer kinds, length zero for string, byte-slice,
array/slice and map kinds, and nil for pointer/interface kinds; a
struct-kind value is never empty whatever its fields; and the two-field
example struct with both `omitempty` integers valued 0 encodes to the
empty object. -/
theorem claim_C4_omitempty :
    (∀ (fields : List JField) (first : Bool),
        encodeFields fields first = encodeFieldsAll (fields.filter fieldKept) first)
    ∧ (∀ f : JField, fieldKept f
        = (f.pkgPath == "" && !((fieldTagInfo f.name f.tag).2.1 && isEmptyValue f.value)))
    ∧ (∀ b, isEmptyValue (.vBool b) = true ↔ b = false)
    ∧ (∀ i : Int, isEmptyValue (.vInt i) = true ↔ i = 0)
    ∧ (∀ n : Nat, isEmptyValue (.vUint n) = true ↔ n = 0)
    ∧ (∀ s, isEmptyValue (.vString s) = true ↔ s.length = 0)
    ∧ (∀ bs, isEmptyValue (.vBytes bs) = true ↔ bs.length = 0)
    ∧ (∀ es, isEmptyValue (.vArray es) = true ↔ es.length = 0)
    ∧ (∀ ks isNil entries, isEmptyValue (.vMap ks isNil entries) = true ↔ entries.length = 0)
    ∧ (∀ o, isEmptyValue (.vPtr o) = true ↔ o = none)
    ∧ (∀ fs, isEmptyValue (.vStruct fs) = false)
    ∧ Marshal (.vStruct [.mk "A" "" ",omitempty" (.vInt 0), .mk "B" "" ",omitempty" (.vInt 0)])
        = .ok (strBytes "\x7b\x7d") := by
  refine ⟨encodeFields_filter, fun f => rfl, ?_, ?_, ?_, ?_, ?_, ?_, ?_, ?_,
    fun fs => rfl, rfl⟩
  · intro b; cases b <;> simp [isEmptyValue]
  · intro i; simp [isEmptyValue]
  · intro n; simp [isEmptyValue]
  · intro s; simp [isEmptyValue]
  · intro bs; simp [isEmptyValue]
  · intro es; simp [isEmptyValue]
  · intro ks isNil entries; simp [isEmptyValue]
  · intro o; simp [isEmptyValue, Option.isNone_iff_eq_none]

/-- Claim C5 (amended): every value of the exact unnamed `[]byte` slice
type encodes as a quoted base64 string — with the two-byte sequence h,i
yielding the JSON string "aGk=" — while byte sequences of any other type
(byte arrays, named byte-slice types) take the generic array path; see the
counterexample. -/
theorem claim_C5_byte_slice_base64 :
    (∀ (bs : List Nat) (quoted : Bool),
        reflectValueQuoted (.vBytes bs) quoted = .ok (34 :: (base64Encode bs ++ [34])))
    ∧ Marshal (.vBytes [104, 105]) = .ok (strBytes "\"aGk=\"") :=
  ⟨fun _ _ => rfl, rfl⟩

/-- Claim C5 counterexample: the two-byte array `[2]byte{'h','i'}` — a
sequence whose element representation is exactly a raw byte, but whose
type is not the `[]byte` slice type the encoder tests for — encodes as the
JSON array [104,105] of integers, not as a base64 string. -/
theorem counterexample_C5_byte_array :
    Marshal (.vArray [.vUint 104, .vUint 105]) = .ok (strBytes "[104,105]") := rfl

/-- Claim C6: under the `string` option a boolean field renders as the
JSON string "true"/"false", a numeric field as its digit text inside
quotes, and a string-kind field is first fully JSON-encoded and that
already-quoted form is itself escaped and re-quoted (double encoding); in
particular an integer field N tagged `,string` valued 5 yields the object
with "N":"5", and a string field "ab" yields the doubly quoted form. -/
theorem claim_C6_string_option :
    (∀ b : Bool, reflectValueQuoted (.vBool b) true
        = .ok (34 :: (strBytes (if b then "true" else "false") ++ [34])))
    ∧ (∀ i : Int, reflectValueQuoted (.vInt i) true = .ok (34 :: (itoa i ++ [34])))
    ∧ (∀ n : Nat, reflectValueQuoted (.vUint n) true = .ok (34 :: (uitoa n ++ [34])))
    ∧ (∀ s : List Nat, reflectValueQuoted (.vString s) true
        = Except.bind (encString s) encString)
    ∧ Marshal (.vStruct [.mk "N" "" ",string" (.vInt 5)])
        = .ok (strBytes "\x7b\"N\":\"5\"\x7d")
    ∧ Marshal (.vStruct [.mk "S" "" ",string" (.vString [97, 98])])
        = .ok [123, 34, 83, 34, 58, 34, 92, 34, 97, 98, 92, 34, 34, 125] := by
  refine ⟨?_, ?_, ?_, ?_, rfl, rfl⟩
  · intro b; cases b <;> rfl
  · intro i
    show writeString true (itoa i) = _
    unfold writeString
    rw [if_pos rfl]
    exact encString_safe (itoa i) (itoa_safe i)
  · intro n
    show writeString true (uitoa n) = _
    unfold writeString
    rw [if_pos rfl]
    refine encString_safe (uitoa n) (fun b hb => ?_)
    have := uitoa_digits n b hb
    simp only [safeByte, Bool.and_eq_true, decide_eq_true_eq]
    omega
  · intro s
    cases h : encString s with
    | error e => simp [reflectValueQuoted, Except.bind, h]
    | ok sb => simp [reflectValueQuoted, Except.bind, h]

/-- Claim C7: in the string escaper, every all-ASCII string renders as the
concatenation of per-byte escapes between quotes, where `<` and `>` become
`<` and `>`, backslash and quote and bytes below 0x20 become
their standard JSON escapes (`\\`, `\"`, `\n`, `\r`, or `\u00XX`), the
byte `&` is left unescaped by this pass, and all other safe bytes are
copied verbatim. -/
theorem claim_C7_escaping :
    (∀ s : List Nat, (∀ b ∈ s, b < 128) →
        encString s = .ok (34 :: (escapeAllAscii s ++ [34])))
    ∧ specEscByte 60 = strBytes "\\u003c"
    ∧ specEscByte 62 = strBytes "\\u003e"
    ∧ specEscByte 38 = [38]
    ∧ specEscByte 92 = [92, 92]
    ∧ specEscByte 34 = [92, 34]
    ∧ specEscByte 10 = [92, 110]
    ∧ specEscByte 13 = [92, 114]
    ∧ (∀ b, b < 32 → ¬b = 10 → ¬b = 13 →
        specEscByte b = [92, 117, 48, 48, hexDigit (b / 16), hexDigit (b % 16)])
    ∧ (∀ b, safeByte b = true → specEscByte b = [b]) := by
  refine ⟨fun s h => encString_ascii s h, rfl, rfl, rfl, rfl, rfl, rfl, rfl, ?_, ?_⟩
  · decide
  · intro b hs
    rw [specEscByte_eq b (safeByte_lt b hs), if_pos hs]

/-- Claim C7 witness: the escaper at the concrete string a<b&c followed by
a newline byte. -/
theorem claim_C7_escaping_witness :
    (∀ b ∈ [97, 60, 98, 38, 99, 10], b < 128)
    ∧ encString [97, 60, 98, 38, 99, 10]
        = .ok (34 :: (escapeAllAscii [97, 60, 98, 38, 99, 10] ++ [34])) :=
  ⟨by decide, claim_C7_escaping.1 [97, 60, 98, 38, 99, 10] (by decide)⟩

/-- Claim C8: a value exposing the `MarshalJSON` hook is encoded by
invoking the hook — the underlying structural value and the quoting flag
never influence the result — the hook's bytes are validated and compacted
before being spliced in as the output, and a hook error or syntactically
invalid hook output fails the encode with the `MarshalerError`; shown
concretely on valid spaced output, invalid output, and a failing hook. -/
theorem claim_C8_marshaler_hook :
    (∀ (hook : Except Unit (List Nat)) (core1 core2 : JValue) (q1 q2 : Bool),
        reflectValueQuoted (.vMarshaler hook core1) q1
          = reflectValueQuoted (.vMarshaler hook core2) q2)
    ∧ (∀ (bs : List Nat) (core : JValue) (quoted : Bool),
        reflectValueQuoted (.vMarshaler (.ok bs) core) quoted
          = match compact bs with
            | some cb => .ok cb
            | none => .error .marshalerError)
    ∧ (∀ (e : Unit) (core : JValue) (quoted : Bool),
        reflectValueQuoted (.vMarshaler (.error e) core) quoted = .error .marshalerError)
    ∧ Marshal (.vMarshaler (.ok (strBytes " \x7b \"a\" : 1 \x7d ")) (.vBool true))
        = .ok (strBytes "\x7b\"a\":1\x7d")
    ∧ Marshal (.vMarshaler (.ok (strBytes "nope")) (.vBool true)) = .error .marshalerError
    ∧ Marshal (.vMarshaler (.error ()) .vInvalid) = .error .marshalerError :=
  ⟨fun _ _ _ _ _ => rfl, fun _ _ _ => rfl, fun _ _ _ => rfl, rfl, rfl, rfl⟩

/-- Claim C9: the parsed tag's name prefix replaces the field's intrinsic
name as the output key exactly when the tag is nonempty and the prefix
before the first comma passes `isValidTag` — nonempty and composed solely
of letters, digits, `$`, `-`, `_` — otherwise the intrinsic name is used;
unrecognized option tokens are dropped silently with no error path, shown
on concrete tags and end to end. -/
theorem claim_C9_tag_parsing :
    (∀ fname tv : String, (fieldTagInfo fname tv).1
        = if tv = "" then fname
          else if isValidTag (parseTag tv).1 then (parseTag tv).1 else fname)
    ∧ (∀ s : String, isValidTag s = true ↔
        (¬s = "" ∧ ∀ c ∈ s.data, c = '$' ∨ c = '-' ∨ c = '_' ∨ c.isAlpha ∨ c.isDigit))
    ∧ fieldTagInfo "Field" "myName,bogus" = ("myName", false, false)
    ∧ fieldTagInfo "Field" "my name,omitempty" = ("Field", true, false)
    ∧ fieldTagInfo "Field" ",omitempty" = ("Field", true, false)
    ∧ fieldTagInfo "Field" "myName,omitempty,bogus" = ("myName", true, false)
    ∧ Marshal (.vStruct [.mk "Field" "" "myName,bogus" (.vInt 5)])
        = .ok (strBytes "\x7b\"myName\":5\x7d") := by
  refine ⟨?_, ?_, rfl, rfl, rfl, rfl, rfl⟩
  · intro fname tv
    unfold fieldTagInfo
    by_cases h : tv = "" <;> simp [h]
  · intro s
    unfold isValidTag
    by_cases h : s = ""
    · simp [h]
    · rw [if_neg h]
      simp only [List.all_eq_true, Bool.or_eq_true, decide_eq_true_eq]
      refine ⟨fun ha => ⟨h, fun c hc => ?_⟩, fun ha c hc => ?_⟩
      · have := ha c hc; tauto
      · have := ha.2 c hc; tauto

/-- Claim C10: encoding a value that carries no runtime type information —
an invalid reflected value, as produced by an untyped nil input — succeeds
and produces exactly the JSON literal null, whatever the quoting flag,
rather than returning an error. -/
theorem claim_C10_invalid_null :
    (∀ quoted : Bool, reflectValueQuoted .vInvalid quoted = .ok (strBytes "null"))
    ∧ Marshal .vInvalid = .ok (strBytes "null") :=
  ⟨fun _ => rfl, rfl⟩

end GoJson
